import Mathlib

/-!
Shallow embedding of the TrieWASM router (src/src/lib.rs).

Strings are modelled as lists of characters (`Str`).  The opaque JS handler
values are modelled by an arbitrary type parameter `α`; the Rust `Handler`
type is `Option α` (JS null/undefined maps to `none`, mirroring
`js_value_to_option`).  Rust's `HashMap<String, _>` is modelled as an
association list with key-replacing insert (`insertAssoc`) and key lookup
(`lookupAssoc`), which captures exactly the map operations the source uses
(`insert`, `get`, `contains_key`).

Rust's `str::trim_start_matches` (strips every leading occurrence of the
pattern) and `str::split` (splits at each non-overlapping occurrence of a
non-empty pattern) are given fuel-based executable definitions; the fuel
supplied by the wrappers is always sufficient (each step consumes at least
one character), so the fallback branches are unreachable.
-/

abbrev Str := List Char

def str (s : String) : Str := s.data

abbrev Params := List (Str × Str)

def insertAssoc {β : Type} : List (Str × β) → Str → β → List (Str × β)
  | [], k, v => [(k, v)]
  | (k0, v0) :: rest, k, v =>
    if k0 = k then (k, v) :: rest else (k0, v0) :: insertAssoc rest k v

def lookupAssoc {β : Type} : List (Str × β) → Str → Option β
  | [], _ => none
  | (k0, v0) :: rest, k => if k0 = k then some v0 else lookupAssoc rest k

/-- `StaticTreeNode` from the source: handler, wildcard handler, static
children (map from segment text to child) and at most one dynamic child.
`DynamicTreeNode { node, param_name }` is modelled as the pair
`(node, param_name)` stored in `dynamic_child`. -/
inductive StaticTreeNode (α : Type) : Type where
  | mk (handler : Option α) (wildcard_handler : Option α)
      (static_children : List (Str × StaticTreeNode α))
      (dynamic_child : Option (StaticTreeNode α × Str)) : StaticTreeNode α

def StaticTreeNode.handler {α : Type} : StaticTreeNode α → Option α
  | .mk h _ _ _ => h

def StaticTreeNode.wildcard_handler {α : Type} : StaticTreeNode α → Option α
  | .mk _ w _ _ => w

def StaticTreeNode.static_children {α : Type} :
    StaticTreeNode α → List (Str × StaticTreeNode α)
  | .mk _ _ sc _ => sc

def StaticTreeNode.dynamic_child {α : Type} :
    StaticTreeNode α → Option (StaticTreeNode α × Str)
  | .mk _ _ _ dc => dc

/-- `StaticTreeNode::new(handler)`: given handler, everything else default. -/
def StaticTreeNode.new {α : Type} (handler : Option α) : StaticTreeNode α :=
  .mk handler none [] none

/-- Functional counterpart of writing through `&mut self.handler`
(`current_node.handler = ...` at the end of `RouterTree::add`). -/
def StaticTreeNode.setHandler {α : Type} : StaticTreeNode α → Option α → StaticTreeNode α
  | .mk _ w sc dc, h => .mk h w sc dc

/-- Functional counterpart of `add_static_child` followed by in-place
mutation of the map entry: store `child` under key `segment`. -/
def StaticTreeNode.withStaticChild {α : Type} :
    StaticTreeNode α → Str → StaticTreeNode α → StaticTreeNode α
  | .mk h w sc dc, segment, child => .mk h w (insertAssoc sc segment child) dc

/-- Functional counterpart of `set_dynamic_child` / in-place mutation of the
dynamic child: the pair is `(node, param_name)`. -/
def StaticTreeNode.withDynamicChild {α : Type} :
    StaticTreeNode α → StaticTreeNode α × Str → StaticTreeNode α
  | .mk h w sc _, d => .mk h w sc (some d)

def StaticTreeNode.get_static_child {α : Type} (n : StaticTreeNode α) (segment : Str) :
    Option (StaticTreeNode α) :=
  lookupAssoc n.static_children segment

def StaticTreeNode.has_static_child {α : Type} (n : StaticTreeNode α) (segment : Str) : Bool :=
  (n.get_static_child segment).isSome

def StaticTreeNode.get_dynamic_child {α : Type} (n : StaticTreeNode α) :
    Option (StaticTreeNode α × Str) :=
  n.dynamic_child

def StaticTreeNode.has_dynamic_child {α : Type} (n : StaticTreeNode α) : Bool :=
  n.dynamic_child.isSome

/-- The `TreeNode` enum used by lookup: a static child, or a dynamic child
together with its parameter name. -/
inductive TreeNode (α : Type) : Type where
  | Static (n : StaticTreeNode α) : TreeNode α
  | Dynamic (n : StaticTreeNode α × Str) : TreeNode α

/-- `get_child`: the static child under the exact segment text if present,
otherwise the dynamic child ( `or_else` in the source). -/
def StaticTreeNode.get_child {α : Type} (n : StaticTreeNode α) (segment : Str) :
    Option (TreeNode α) :=
  match n.get_static_child segment with
  | some c => some (TreeNode.Static c)
  | none => n.get_dynamic_child.map (fun d => TreeNode.Dynamic d)

/-- Rust `str::trim_start_matches`, fuel-based: repeatedly strip the pattern
from the front while it is a prefix.  With an empty pattern each step strips
nothing and the string is returned unchanged once fuel runs out, matching
Rust (stripping an empty pattern is a no-op). -/
def trimStartFuel (sep : Str) : Nat → Str → Str
  | 0, s => s
  | fuel + 1, s =>
    if sep.isPrefixOf s then trimStartFuel sep fuel (s.drop sep.length) else s

def trim_start_matches (sep s : Str) : Str :=
  trimStartFuel sep s.length s

/-- Rust `str::split` on a non-empty pattern, fuel-based: scan left to right,
emit the accumulated segment (held reversed in `cur`) at each occurrence of
the pattern.  The fuel-0 fallback is unreachable from `splitSep`. -/
def splitFuel (sep : Str) : Nat → Str → Str → List Str
  | 0, cur, s => [cur.reverse ++ s]
  | fuel + 1, cur, s =>
    match s with
    | [] => [cur.reverse]
    | c :: rest =>
      if sep.isPrefixOf (c :: rest) then
        cur.reverse :: splitFuel sep fuel [] (rest.drop (sep.length - 1))
      else
        splitFuel sep fuel (c :: cur) rest

def splitSep (sep s : Str) : List Str :=
  match sep with
  | [] => [s]
  | _ :: _ => splitFuel sep (s.length + 1) [] s

def PARAM_PREFIX_DEFAULT : Str := [':']
def PATH_SEPARATOR_DEFAULT : Str := ['/']
def WILDCARD_SYMBOL_DEFAULT : Str := ['*']

/-- `RouterTree` from the source.  The `param_prefix` configuration field is
named `param_marker` here. -/
structure RouterTree (α : Type) : Type where
  root : StaticTreeNode α
  path_separator : Str
  param_marker : Str
  wildcard_symbol : Str

/-- `RouterTree::new`: root node holding the given handler, configuration
defaulted where absent. -/
def RouterTree.new {α : Type} (handler : Option α)
    (param_marker path_separator wildcard_symbol : Option Str) : RouterTree α :=
  { root := StaticTreeNode.new handler
    path_separator := path_separator.getD PATH_SEPARATOR_DEFAULT
    param_marker := param_marker.getD PARAM_PREFIX_DEFAULT
    wildcard_symbol := wildcard_symbol.getD WILDCARD_SYMBOL_DEFAULT }

/-- `RouterTree::parse_path`: strip leading separators, then split on the
separator. -/
def RouterTree.parse_path {α : Type} (t : RouterTree α) (path : Str) : List Str :=
  splitSep t.path_separator (trim_start_matches t.path_separator path)

/-- `RouterTree::is_dynamic_segment`: the segment starts with the parameter
marker. -/
def RouterTree.is_dynamic_segment (segment param_marker : Str) : Bool :=
  param_marker.isPrefixOf segment

/-- `RouterTree::strip_param_prefix`: `strip_prefix(..).unwrap_or("")`. -/
def RouterTree.strip_param_marker (segment param_marker : Str) : Str :=
  if param_marker.isPrefixOf segment then segment.drop param_marker.length else []

/-- The segment loop of `RouterTree::add`, as recursion over the segment
list.  In the dynamic case an existing dynamic child is reused (its
parameter name untouched); only a missing one is created, with no handler
and the given name.  In the static case a missing child is created with no
handler.  After the last segment the node's handler is overwritten. -/
def addGo {α : Type} (param_marker : Str) (handler : Option α) :
    List Str → StaticTreeNode α → StaticTreeNode α
  | [], n => n.setHandler handler
  | segment :: rest, n =>
    if RouterTree.is_dynamic_segment segment param_marker then
      match n.dynamic_child with
      | some (child, name) =>
        n.withDynamicChild (addGo param_marker handler rest child, name)
      | none =>
        n.withDynamicChild
          (addGo param_marker handler rest (StaticTreeNode.new none),
            RouterTree.strip_param_marker segment param_marker)
    else
      match n.get_static_child segment with
      | some child => n.withStaticChild segment (addGo param_marker handler rest child)
      | none =>
        n.withStaticChild segment (addGo param_marker handler rest (StaticTreeNode.new none))

/-- `RouterTree::add`. -/
def RouterTree.add {α : Type} (t : RouterTree α) (path : Str) (handler : Option α) :
    RouterTree α :=
  { t with root := addGo t.param_marker handler (t.parse_path path) t.root }

/-- The segment loop of `RouterTree::traverse_path`: before consuming a
segment, a set wildcard handler stops descent at the current node; otherwise
follow the static child for the exact segment text, else the dynamic child
(recording the parameter binding), else fail. -/
def traverseGo {α : Type} :
    List Str → Params → StaticTreeNode α → Option (StaticTreeNode α × Params)
  | [], params, n => some (n, params)
  | segment :: rest, params, n =>
    if n.wildcard_handler.isSome then
      some (n, params)
    else
      match n.get_child segment with
      | some (TreeNode.Static node) => traverseGo rest params node
      | some (TreeNode.Dynamic (node, param_name)) =>
        traverseGo rest (insertAssoc params param_name segment) node
      | none => none

/-- `RouterTree::traverse_path`. -/
def RouterTree.traverse_path {α : Type} (t : RouterTree α) (path : Str) :
    Option (StaticTreeNode α × Params) :=
  traverseGo (t.parse_path path) [] t.root

/-- `TraversePathReturn::extract_handler`: `none` when the final node's
handler is absent, otherwise the handler paired with the collected params. -/
def extract_handler {α : Type} (r : StaticTreeNode α × Params) : Option (α × Params) :=
  (StaticTreeNode.handler r.1).map (fun h => (h, r.2))

/-- `RouterTree::get`: traverse, then extract (`map` + `flatten` = `bind`). -/
def RouterTree.get {α : Type} (t : RouterTree α) (path : Str) : Option (α × Params) :=
  (t.traverse_path path).bind extract_handler

/-- A tree built through the public surface alone: `new` with the given root
handler and configuration, followed by a sequence of `add` calls. -/
def mkTree {α : Type} (handler : Option α) (pm ps ws : Option Str)
    (adds : List (Str × Option α)) : RouterTree α :=
  adds.foldl (fun t ph => t.add ph.1 ph.2) (RouterTree.new handler pm ps ws)

@[simp] theorem StaticTreeNode.handler_mk {α : Type} (h w : Option α)
    (sc : List (Str × StaticTreeNode α)) (dc : Option (StaticTreeNode α × Str)) :
    (StaticTreeNode.mk h w sc dc).handler = h := rfl

@[simp] theorem StaticTreeNode.wildcard_handler_mk {α : Type} (h w : Option α)
    (sc : List (Str × StaticTreeNode α)) (dc : Option (StaticTreeNode α × Str)) :
    (StaticTreeNode.mk h w sc dc).wildcard_handler = w := rfl

@[simp] theorem StaticTreeNode.static_children_mk {α : Type} (h w : Option α)
    (sc : List (Str × StaticTreeNode α)) (dc : Option (StaticTreeNode α × Str)) :
    (StaticTreeNode.mk h w sc dc).static_children = sc := rfl

@[simp] theorem StaticTreeNode.dynamic_child_mk {α : Type} (h w : Option α)
    (sc : List (Str × StaticTreeNode α)) (dc : Option (StaticTreeNode α × Str)) :
    (StaticTreeNode.mk h w sc dc).dynamic_child = dc := rfl

/-! ## Claim C7: exact match with one dynamic segment -/

def exampleTreeC7 : RouterTree Nat :=
  mkTree none none none none [(str ("/user/:id"), some 1)]

/-- C7: on a fresh default tree after `add("/user/:id", H)`, `get("/user/123")`
returns handler `H` together with the parameter mapping binding `id` to the
literal traversed segment `123`. -/
theorem c7_exact_match :
    exampleTreeC7.get (str ("/user/123")) = some (1, [(str ("id"), str ("123"))]) := by
  decide

/-! ## Claim C4: static precedence over dynamic at the same level -/

def exampleTreeC4 : RouterTree Nat :=
  mkTree none none none none [(str ("/user/:id"), some 1), (str ("/user/admin"), some 2)]

/-- C4: after `add("/user/:id", H1)` then `add("/user/admin", H2)`, the static
child under the exact segment text is tried before the dynamic child:
`get("/user/admin")` returns `H2` with no parameter binding, while
`get("/user/42")` returns `H1` with `id` bound to `42`. -/
theorem c4_static_precedence :
    exampleTreeC4.get (str ("/user/admin")) = some (2, []) ∧
    exampleTreeC4.get (str ("/user/42")) = some (1, [(str ("id"), str ("42"))]) := by
  decide

/-! ## Claim C1: what happens when a second dynamic pattern is inserted -/

def exampleTreeC1 : RouterTree Nat :=
  mkTree none none none none [(str ("/a/:x/b"), some 1), (str ("/a/:y/c"), some 2)]

/-- C1 (counterexample): the claim says `get("/a/1/b")` returns "no match"
after `add("/a/:x/b", H1)` then `add("/a/:y/c", H2)`; in fact the second
insertion reuses the existing dynamic child, the `:x` subtree survives, and
the lookup succeeds with `H1`. -/
theorem c1_counterexample :
    exampleTreeC1.get (str ("/a/1/b")) = some (1, [(str ("x"), str ("1"))]) := by
  decide

/-- C1 (amended): after `add("/a/:x/b", H1)` then `add("/a/:y/c", H2)` the
existing dynamic child is reused, not replaced: its subtree is kept, so
`get("/a/1/b")` returns `H1` with `x` bound to `1`, and `get("/a/1/c")`
returns `H2` also with `x` (the first insertion's name) bound to `1`. -/
theorem c1_amended_dynamic_child_reused :
    exampleTreeC1.get (str ("/a/1/b")) = some (1, [(str ("x"), str ("1"))]) ∧
    exampleTreeC1.get (str ("/a/1/c")) = some (2, [(str ("x"), str ("1"))]) := by
  decide

/-! ## Claim C2: the dynamic-child branch of insertion -/

/-- C2: at any node, when `add` meets a dynamic segment: an existing dynamic
child is reused with its parameter name unchanged (insertion continues into
the stored child), and a dynamic child is created — with the stripped name
and no handler — only when none exists. -/
theorem c2_add_dynamic_child_reuse (α : Type) (pm : Str) (h : Option α)
    (segment : Str) (rest : List Str) (n : StaticTreeNode α)
    (hdyn : RouterTree.is_dynamic_segment segment pm = true) :
    (∀ child name, n.dynamic_child = some (child, name) →
        (addGo pm h (segment :: rest) n).dynamic_child =
          some (addGo pm h rest child, name)) ∧
    (n.dynamic_child = none →
        (addGo pm h (segment :: rest) n).dynamic_child =
          some (addGo pm h rest (StaticTreeNode.new none),
            RouterTree.strip_param_marker segment pm)) := by
  cases n with
  | mk h0 w sc dc =>
    constructor
    · intro child name hc
      simp only [StaticTreeNode.dynamic_child_mk] at hc
      subst hc
      simp [addGo, hdyn, StaticTreeNode.withDynamicChild]
    · intro hc
      simp only [StaticTreeNode.dynamic_child_mk] at hc
      subst hc
      simp [addGo, hdyn, StaticTreeNode.withDynamicChild]

/-- C2 witness: inserting `:y/c` at a node whose dynamic child is named `x`
keeps the name `x` and continues into the stored child. -/
theorem c2_witness :
    (addGo PARAM_PREFIX_DEFAULT (some 2) [str (":y"), str ("c")]
        (StaticTreeNode.mk (none : Option Nat) none []
          (some (StaticTreeNode.new none, str ("x"))))).dynamic_child =
      some (addGo PARAM_PREFIX_DEFAULT (some 2) [str ("c")]
        (StaticTreeNode.new none), str ("x")) :=
  (c2_add_dynamic_child_reuse Nat PARAM_PREFIX_DEFAULT (some 2) (str (":y"))
      [str ("c")] _ (by decide)).1 (StaticTreeNode.new none) (str ("x")) rfl

/-! ## Claim C6: lookup never backtracks -/

def exampleTreeC6 : RouterTree Nat :=
  mkTree none none none none [(str ("/a/:x/c"), some 1), (str ("/a/b"), some 2)]

/-- C6: at each level (with no wildcard set) the traversal step is decided
solely by `get_child`: static child if present, else dynamic child, else an
immediate "no match"; the choice is final — the remaining result is exactly
the traversal of the chosen child, never a retry of the other branch.  In
particular after `add("/a/:x/c", H1)` and `add("/a/b", H2)`, `get("/a/b/c")`
is "no match" although the dynamic branch would have matched. -/
theorem c6_no_backtracking :
    (∀ (α : Type) (n : StaticTreeNode α) (segment : Str) (rest : List Str)
        (params : Params),
      n.wildcard_handler = none →
        traverseGo (segment :: rest) params n =
          match n.get_child segment with
          | some (TreeNode.Static node) => traverseGo rest params node
          | some (TreeNode.Dynamic (node, param_name)) =>
            traverseGo rest (insertAssoc params param_name segment) node
          | none => none) ∧
    exampleTreeC6.get (str ("/a/b/c")) = none := by
  refine ⟨?_, by decide⟩
  intro α n segment rest params hw
  simp [traverseGo, hw]

/-- C6 witness: at a node with no children and no wildcard, a lookup step
fails immediately. -/
theorem c6_witness :
    traverseGo [str ("zzz")] ([] : Params)
      (StaticTreeNode.new (some 5) : StaticTreeNode Nat) = none := by
  rw [c6_no_backtracking.1 Nat (StaticTreeNode.new (some 5)) (str ("zzz")) [] [] rfl]
  rfl

/-! ## Claim C8: when lookup returns "no match" -/

def exampleTreeC8 : RouterTree Nat :=
  mkTree none none none none [(str ("/user/:id"), some 1)]

/-- C8: `get` returns "no match" (an absent value) exactly when traversal
fails on a missing edge or the final node reached has no handler; after only
`add("/user/:id", H)` both `get("/user")` and `get("/user/123/extra")` are
"no match". -/
theorem c8_no_match_iff :
    (∀ (α : Type) (t : RouterTree α) (path : Str),
      t.get path = none ↔
        (t.traverse_path path = none ∨
          ∃ node params, t.traverse_path path = some (node, params) ∧
            node.handler = none)) ∧
    exampleTreeC8.get (str ("/user")) = none ∧
    exampleTreeC8.get (str ("/user/123/extra")) = none := by
  refine ⟨?_, by decide, by decide⟩
  intro α t path
  unfold RouterTree.get
  cases hT : t.traverse_path path with
  | none => simp
  | some r =>
    obtain ⟨node, params⟩ := r
    cases hh : node.handler <;> simp [extract_handler, hh]

/-! ## Claim C9: what values a dynamic child can bind -/

def exampleTreeC9 : RouterTree Nat :=
  mkTree none none none none [(str ("/user/:id"), some 1)]

/-- C9 (counterexample): the claim says a traversed dynamic edge never binds
a parameter to the empty string; in fact after `add("/user/:id", H)` the
lookup `get("/user/")` traverses the dynamic edge on the empty trailing
segment and returns `H` with `id` bound to `""`. -/
theorem c9_counterexample :
    exampleTreeC9.get (str ("/user/")) = some (1, [(str ("id"), ([] : Str))]) := by
  decide

/-- C9 (amended): a dynamic child matches any single segment value, empty or
not: whenever the static child is absent and a dynamic child is present (and
no wildcard is set), traversal descends the dynamic edge binding its
parameter name to the literal segment value, with no non-emptiness check. -/
theorem c9_dynamic_matches_any_segment (α : Type) (n : StaticTreeNode α)
    (segment : Str) (rest : List Str) (params : Params)
    (child : StaticTreeNode α) (name : Str)
    (hw : n.wildcard_handler = none)
    (hs : n.get_static_child segment = none)
    (hd : n.dynamic_child = some (child, name)) :
    traverseGo (segment :: rest) params n =
      traverseGo rest (insertAssoc params name segment) child := by
  simp [traverseGo, hw, StaticTreeNode.get_child, hs, StaticTreeNode.get_dynamic_child, hd]

/-- C9 witness: the amended step applied to the empty segment — the
parameter is bound to `""`. -/
theorem c9_witness :
    traverseGo [([] : Str)] ([] : Params)
      (StaticTreeNode.mk (none : Option Nat) none []
        (some (StaticTreeNode.new (some 3), str ("id")))) =
      traverseGo [] (insertAssoc [] (str ("id")) ([] : Str))
        (StaticTreeNode.new (some 3)) :=
  c9_dynamic_matches_any_segment Nat _ [] [] [] _ _ rfl rfl rfl

/-! ## Claim C5: how many leading separators are stripped -/

def exampleTreeC5 : RouterTree Nat := mkTree none none none none []

/-- C5 (counterexample): the claim says splitting strips at most one leading
separator, so that `//a` yields a leading empty segment; in fact
`trim_start_matches` strips every leading occurrence and `//a` parses to the
single segment `a`. -/
theorem c5_counterexample :
    exampleTreeC5.parse_path (str ("//a")) = [str ("a")] := by
  decide

theorem trimStartFuel_congr (sep : Str) (hsep : sep ≠ []) :
    ∀ (fuel1 : Nat) (s : Str) (fuel2 : Nat), s.length ≤ fuel1 → s.length ≤ fuel2 →
      trimStartFuel sep fuel1 s = trimStartFuel sep fuel2 s := by
  intro fuel1
  induction fuel1 with
  | zero =>
    intro s fuel2 h1 _
    have hs : s = [] := List.eq_nil_of_length_eq_zero (Nat.le_zero.mp h1)
    subst hs
    obtain ⟨c, cs, rfl⟩ := List.exists_cons_of_ne_nil hsep
    cases fuel2 with
    | zero => rfl
    | succ m => simp [trimStartFuel]
  | succ k ih =>
    intro s fuel2 h1 h2
    cases fuel2 with
    | zero =>
      have hs : s = [] := List.eq_nil_of_length_eq_zero (Nat.le_zero.mp h2)
      subst hs
      obtain ⟨c, cs, rfl⟩ := List.exists_cons_of_ne_nil hsep
      simp [trimStartFuel]
    | succ m =>
      by_cases hp : sep.isPrefixOf s = true
      · have hle : sep.length ≤ s.length :=
          (List.isPrefixOf_iff_prefix.mp hp).length_le
        have hpos : 0 < sep.length := List.length_pos.mpr hsep
        simp only [trimStartFuel, hp, if_true]
        apply ih
        · simp only [List.length_drop]; omega
        · simp only [List.length_drop]; omega
      · simp [trimStartFuel, hp]

/-- C5 (amended): splitting strips every leading occurrence of the
configured separator before splitting: prepending one more separator to a
path does not change how it parses, so `//a` parses exactly like `/a` and
like `a` — to the single segment `a`, with no leading empty segment. -/
theorem c5_amended_strip_all (α : Type) (t : RouterTree α) (path : Str)
    (hsep : t.path_separator ≠ []) :
    t.parse_path (t.path_separator ++ path) = t.parse_path path := by
  unfold RouterTree.parse_path
  congr 1
  unfold trim_start_matches
  have hp : t.path_separator.isPrefixOf (t.path_separator ++ path) = true :=
    List.isPrefixOf_iff_prefix.mpr (List.prefix_append _ _)
  have hpos : 0 < t.path_separator.length := List.length_pos.mpr hsep
  obtain ⟨m, hm⟩ : ∃ m, (t.path_separator ++ path).length = m + 1 := by
    refine ⟨(t.path_separator ++ path).length - 1, ?_⟩
    simp only [List.length_append]
    omega
  rw [hm]
  simp only [trimStartFuel, hp, if_true]
  rw [List.drop_left]
  apply trimStartFuel_congr _ hsep
  · have := congrArg id hm
    simp only [List.length_append, id] at this
    omega
  · exact Nat.le_refl _

/-- C5 witness: on the default tree, `/` ++ `a` parses like `a`. -/
theorem c5_amended_witness :
    exampleTreeC5.parse_path (exampleTreeC5.path_separator ++ str ("a")) =
      exampleTreeC5.parse_path (str ("a")) :=
  c5_amended_strip_all Nat exampleTreeC5 (str ("a")) (by decide)

/-! ## Claim C3: the wildcard handler is dead via the public surface -/

/-- Every node of the subtree (the node itself included) has an absent
`wildcard_handler`. -/
inductive WildcardFree {α : Type} : StaticTreeNode α → Prop where
  | intro (n : StaticTreeNode α)
      (hw : n.wildcard_handler = none)
      (hs : ∀ s c, (s, c) ∈ n.static_children → WildcardFree c)
      (hd : ∀ c p, n.dynamic_child = some (c, p) → WildcardFree c) :
      WildcardFree n

theorem WildcardFree.wildcard_eq {α : Type} {n : StaticTreeNode α}
    (h : WildcardFree n) : n.wildcard_handler = none := by
  cases h with
  | intro n hw hs hd => exact hw

theorem WildcardFree.static_mem {α : Type} {n c : StaticTreeNode α} {s : Str}
    (h : WildcardFree n) (hm : (s, c) ∈ n.static_children) : WildcardFree c := by
  cases h with
  | intro n hw hs hd => exact hs s c hm

theorem WildcardFree.dyn {α : Type} {n c : StaticTreeNode α} {p : Str}
    (h : WildcardFree n) (hm : n.dynamic_child = some (c, p)) : WildcardFree c := by
  cases h with
  | intro n hw hs hd => exact hd c p hm

theorem mem_insertAssoc {β : Type} {l : List (Str × β)} {k s : Str} {v c : β}
    (h : (s, c) ∈ insertAssoc l k v) : (s, c) ∈ l ∨ (s = k ∧ c = v) := by
  induction l with
  | nil =>
    simp [insertAssoc] at h
    exact Or.inr h
  | cons kv rest ih =>
    obtain ⟨k0, v0⟩ := kv
    simp only [insertAssoc] at h
    split_ifs at h with hk
    · rcases List.mem_cons.mp h with h1 | h1
      · obtain ⟨hs, hc⟩ := Prod.mk.inj h1
        exact Or.inr ⟨hs, hc⟩
      · exact Or.inl (List.mem_cons_of_mem _ h1)
    · rcases List.mem_cons.mp h with h1 | h1
      · exact Or.inl (List.mem_cons.mpr (Or.inl h1))
      · rcases ih h1 with h2 | h2
        · exact Or.inl (List.mem_cons_of_mem _ h2)
        · exact Or.inr h2

theorem lookupAssoc_mem {β : Type} {l : List (Str × β)} {k : Str} {v : β}
    (h : lookupAssoc l k = some v) : (k, v) ∈ l := by
  induction l with
  | nil => simp [lookupAssoc] at h
  | cons kv rest ih =>
    obtain ⟨k0, v0⟩ := kv
    simp only [lookupAssoc] at h
    split_ifs at h with hk
    · subst hk
      obtain rfl : v0 = v := Option.some.inj h
      exact List.mem_cons_self _ _
    · exact List.mem_cons_of_mem _ (ih h)

theorem wildcardFree_new {α : Type} (h : Option α) :
    WildcardFree (StaticTreeNode.new h) := by
  refine WildcardFree.intro _ rfl ?_ ?_
  · intro s c hm
    simp [StaticTreeNode.new] at hm
  · intro c p hm
    simp [StaticTreeNode.new] at hm

theorem wildcardFree_setHandler {α : Type} {n : StaticTreeNode α}
    (hn : WildcardFree n) (h : Option α) : WildcardFree (n.setHandler h) := by
  cases n with
  | mk h0 w sc dc =>
    refine WildcardFree.intro _ hn.wildcard_eq ?_ ?_
    · intro s c hm
      exact hn.static_mem (by simpa [StaticTreeNode.setHandler] using hm)
    · intro c p hm
      exact hn.dyn (by simpa [StaticTreeNode.setHandler] using hm)

theorem wildcardFree_withStaticChild {α : Type} {n c : StaticTreeNode α}
    (hn : WildcardFree n) (hc : WildcardFree c) (k : Str) :
    WildcardFree (n.withStaticChild k c) := by
  cases n with
  | mk h0 w sc dc =>
    refine WildcardFree.intro _ hn.wildcard_eq ?_ ?_
    · intro s c0 hm
      simp only [StaticTreeNode.withStaticChild, StaticTreeNode.static_children_mk] at hm
      rcases mem_insertAssoc hm with h1 | ⟨_, h2⟩
      · exact hn.static_mem h1
      · exact h2 ▸ hc
    · intro c0 p hm
      exact hn.dyn (by simpa [StaticTreeNode.withStaticChild] using hm)

theorem wildcardFree_withDynamicChild {α : Type} {n c : StaticTreeNode α}
    (hn : WildcardFree n) (hc : WildcardFree c) (p : Str) :
    WildcardFree (n.withDynamicChild (c, p)) := by
  cases n with
  | mk h0 w sc dc =>
    refine WildcardFree.intro _ hn.wildcard_eq ?_ ?_
    · intro s c0 hm
      exact hn.static_mem (by simpa [StaticTreeNode.withDynamicChild] using hm)
    · intro c0 p0 hm
      simp only [StaticTreeNode.withDynamicChild, StaticTreeNode.dynamic_child_mk,
        Option.some.injEq, Prod.mk.injEq] at hm
      exact hm.1 ▸ hc

theorem wildcardFree_addGo {α : Type} (pm : Str) (h : Option α) :
    ∀ (segs : List Str) (n : StaticTreeNode α),
      WildcardFree n → WildcardFree (addGo pm h segs n) := by
  intro segs
  induction segs with
  | nil => intro n hn; exact wildcardFree_setHandler hn h
  | cons seg rest ih =>
    intro n hn
    by_cases hdyn : RouterTree.is_dynamic_segment seg pm = true
    · cases hdc : n.dynamic_child with
      | some d =>
        obtain ⟨child, name⟩ := d
        simp only [addGo, hdyn, if_true, hdc]
        exact wildcardFree_withDynamicChild hn (ih child (hn.dyn hdc)) name
      | none =>
        simp only [addGo, hdyn, if_true, hdc]
        exact wildcardFree_withDynamicChild hn (ih _ (wildcardFree_new none)) _
    · cases hsc : n.get_static_child seg with
      | some child =>
        simp only [addGo, hdyn, if_false, Bool.false_eq_true, hsc]
        exact wildcardFree_withStaticChild hn (ih child (hn.static_mem (lookupAssoc_mem hsc))) seg
      | none =>
        simp only [addGo, hdyn, if_false, Bool.false_eq_true, hsc]
        exact wildcardFree_withStaticChild hn (ih _ (wildcardFree_new none)) seg

theorem wildcardFree_mkTree {α : Type} (h : Option α) (pm ps ws : Option Str)
    (adds : List (Str × Option α)) : WildcardFree (mkTree h pm ps ws adds).root := by
  unfold mkTree
  have key : ∀ (l : List (Str × Option α)) (t : RouterTree α), WildcardFree t.root →
      WildcardFree (l.foldl (fun t ph => t.add ph.1 ph.2) t).root := by
    intro l
    induction l with
    | nil => intro t ht; exact ht
    | cons ph rest ih =>
      intro t ht
      exact ih _ (wildcardFree_addGo _ _ _ _ ht)
  exact key adds _ (wildcardFree_new h)

/-- The lookup loop with the wildcard short-circuit removed. -/
def traverseGoPlain {α : Type} :
    List Str → Params → StaticTreeNode α → Option (StaticTreeNode α × Params)
  | [], params, n => some (n, params)
  | segment :: rest, params, n =>
    match n.get_child segment with
    | some (TreeNode.Static node) => traverseGoPlain rest params node
    | some (TreeNode.Dynamic (node, param_name)) =>
      traverseGoPlain rest (insertAssoc params param_name segment) node
    | none => none

/-- `get` computed with the wildcard short-circuit removed. -/
def RouterTree.get_no_wildcard {α : Type} (t : RouterTree α) (path : Str) :
    Option (α × Params) :=
  (traverseGoPlain (t.parse_path path) [] t.root).bind extract_handler

theorem traverseGo_eq_plain {α : Type} :
    ∀ (segs : List Str) (params : Params) (n : StaticTreeNode α),
      WildcardFree n → traverseGo segs params n = traverseGoPlain segs params n := by
  intro segs
  induction segs with
  | nil => intro params n _; rfl
  | cons seg rest ih =>
    intro params n hn
    have hw : n.wildcard_handler = none := hn.wildcard_eq
    simp only [traverseGo, traverseGoPlain, hw, Option.isSome_none, Bool.false_eq_true,
      if_false]
    cases hsc : n.get_static_child seg with
    | some child =>
      simp only [StaticTreeNode.get_child, hsc]
      exact ih params child (hn.static_mem (lookupAssoc_mem hsc))
    | none =>
      cases hdc : n.dynamic_child with
      | some d =>
        obtain ⟨child, name⟩ := d
        simp only [StaticTreeNode.get_child, hsc, StaticTreeNode.get_dynamic_child, hdc,
          Option.map_some]
        exact ih _ child (hn.dyn hdc)
      | none =>
        simp only [StaticTreeNode.get_child, hsc, StaticTreeNode.get_dynamic_child, hdc]
        rfl

/-- C3: through the public surface (`new` followed by any sequence of `add`
calls) every node of the tree has an absent `wildcard_handler`, and lookup
coincides with the same traversal with the wildcard short-circuit removed:
wildcard matching is dead functionality. -/
theorem c3_wildcard_dead (α : Type) (h : Option α) (pm ps ws : Option Str)
    (adds : List (Str × Option α)) :
    WildcardFree (mkTree h pm ps ws adds).root ∧
    ∀ path, (mkTree h pm ps ws adds).get path =
      (mkTree h pm ps ws adds).get_no_wildcard path := by
  have hwf := wildcardFree_mkTree h pm ps ws adds
  refine ⟨hwf, fun path => ?_⟩
  unfold RouterTree.get RouterTree.get_no_wildcard RouterTree.traverse_path
  rw [traverseGo_eq_plain _ _ _ hwf]

/-! ## Claim C10: the root handler is unreachable through lookup -/

theorem splitFuel_ne_nil (sep : Str) :
    ∀ (fuel : Nat) (cur s : Str), splitFuel sep fuel cur s ≠ [] := by
  intro fuel
  induction fuel with
  | zero => intro cur s; simp [splitFuel]
  | succ k ih =>
    intro cur s
    cases s with
    | nil => simp [splitFuel]
    | cons c rest =>
      by_cases hp : sep.isPrefixOf (c :: rest) = true
      · simp [splitFuel, hp]
      · simp only [splitFuel, hp, Bool.false_eq_true, if_false]
        exact ih _ _

/-- Splitting always yields at least one segment. -/
theorem parse_path_ne_nil {α : Type} (t : RouterTree α) (p : Str) :
    t.parse_path p ≠ [] := by
  unfold RouterTree.parse_path
  cases hsep : t.path_separator with
  | nil => simp [splitSep]
  | cons c cs =>
    simp only [splitSep]
    exact splitFuel_ne_nil _ _ _ _

/-- Replace the handler stored in the root node, leaving everything else. -/
def setRootHandler {α : Type} (t : RouterTree α) (h : Option α) : RouterTree α :=
  { t with root := t.root.setHandler h }

theorem addGo_cons_setHandler {α : Type} (pm : Str) (h0 h : Option α) (seg : Str)
    (rest : List Str) (n : StaticTreeNode α) :
    addGo pm h0 (seg :: rest) (n.setHandler h) =
      (addGo pm h0 (seg :: rest) n).setHandler h := by
  cases n with
  | mk hh w sc dc =>
    by_cases hdyn : RouterTree.is_dynamic_segment seg pm = true
    · cases dc with
      | some d =>
        obtain ⟨child, name⟩ := d
        simp [addGo, hdyn, StaticTreeNode.setHandler, StaticTreeNode.withDynamicChild]
      | none =>
        simp [addGo, hdyn, StaticTreeNode.setHandler, StaticTreeNode.withDynamicChild]
    · cases hsc : lookupAssoc sc seg with
      | some child =>
        simp [addGo, hdyn, StaticTreeNode.setHandler, StaticTreeNode.withStaticChild,
          StaticTreeNode.get_static_child, hsc]
      | none =>
        simp [addGo, hdyn, StaticTreeNode.setHandler, StaticTreeNode.withStaticChild,
          StaticTreeNode.get_static_child, hsc]

theorem add_setRootHandler {α : Type} (t : RouterTree α) (h h0 : Option α) (p : Str) :
    (setRootHandler t h).add p h0 = setRootHandler (t.add p h0) h := by
  show RouterTree.mk
      (addGo t.param_marker h0 (t.parse_path p) (t.root.setHandler h))
      t.path_separator t.param_marker t.wildcard_symbol =
    RouterTree.mk
      ((addGo t.param_marker h0 (t.parse_path p) t.root).setHandler h)
      t.path_separator t.param_marker t.wildcard_symbol
  obtain ⟨seg, rest, hsegs⟩ : ∃ a l, t.parse_path p = a :: l := by
    cases hq : t.parse_path p with
    | nil => exact absurd hq (parse_path_ne_nil t p)
    | cons a l => exact ⟨a, l, rfl⟩
  rw [hsegs, addGo_cons_setHandler]

theorem foldl_setRootHandler {α : Type} :
    ∀ (adds : List (Str × Option α)) (t : RouterTree α) (h : Option α),
      adds.foldl (fun t ph => t.add ph.1 ph.2) (setRootHandler t h) =
        setRootHandler (adds.foldl (fun t ph => t.add ph.1 ph.2) t) h := by
  intro adds
  induction adds with
  | nil => intro t h; rfl
  | cons ph rest ih =>
    intro t h
    simp only [List.foldl_cons]
    rw [add_setRootHandler]
    exact ih _ _

/-- Two trees built by the same `add` sequence from `new` differ only in the
handler stored at the root node. -/
theorem mkTree_handler_indep (α : Type) (h1 h2 : Option α) (pm ps ws : Option Str)
    (adds : List (Str × Option α)) :
    mkTree h1 pm ps ws adds = setRootHandler (mkTree h2 pm ps ws adds) h1 := by
  unfold mkTree
  rw [← foldl_setRootHandler]
  rfl

theorem traverseGo_cons_setHandler {α : Type} (n : StaticTreeNode α) (h : Option α)
    (seg : Str) (rest : List Str) (params : Params)
    (hw : n.wildcard_handler = none) :
    traverseGo (seg :: rest) params (n.setHandler h) =
      traverseGo (seg :: rest) params n := by
  cases n with
  | mk hh w sc dc =>
    simp only [StaticTreeNode.wildcard_handler_mk] at hw
    subst hw
    rfl

/-- C10: the root handler supplied at construction is unreachable through
lookup.  Splitting always yields at least one segment, and for any two root
handlers the same `add` sequence gives trees whose `get` agrees on every
path — the stored root handler is never returned. -/
theorem c10_root_handler_unreachable (α : Type) (h1 h2 : Option α)
    (pm ps ws : Option Str) (adds : List (Str × Option α)) (path : Str) :
    (∃ seg rest, (mkTree h1 pm ps ws adds).parse_path path = seg :: rest) ∧
    (mkTree h1 pm ps ws adds).get path = (mkTree h2 pm ps ws adds).get path := by
  refine ⟨?_, ?_⟩
  · cases hq : (mkTree h1 pm ps ws adds).parse_path path with
    | nil => exact absurd hq (parse_path_ne_nil _ _)
    | cons a l => exact ⟨a, l, rfl⟩
  rw [mkTree_handler_indep α h1 h2 pm ps ws adds]
  have hw : (mkTree h2 pm ps ws adds).root.wildcard_handler = none :=
    (wildcardFree_mkTree h2 pm ps ws adds).wildcard_eq
  unfold RouterTree.get RouterTree.traverse_path
  have hparse : (setRootHandler (mkTree h2 pm ps ws adds) h1).parse_path path =
      (mkTree h2 pm ps ws adds).parse_path path := rfl
  rw [hparse]
  obtain ⟨seg, rest, hsegs⟩ :
      ∃ a l, (mkTree h2 pm ps ws adds).parse_path path = a :: l := by
    cases hq : (mkTree h2 pm ps ws adds).parse_path path with
    | nil => exact absurd hq (parse_path_ne_nil _ _)
    | cons a l => exact ⟨a, l, rfl⟩
  rw [hsegs]
  have hroot : (setRootHandler (mkTree h2 pm ps ws adds) h1).root =
      (mkTree h2 pm ps ws adds).root.setHandler h1 := rfl
  rw [hroot, traverseGo_cons_setHandler _ _ _ _ _ hw]
